import Mathlib

set_option autoImplicit false

/-!
Shallow embedding of the core of the Alilou-for-Coins repository:
the expiring cache (src/cache_manager.py), the URL processor
(src/url_processor.py) and the affiliate client batch pipeline
(src/aliexpress_client.py).  Each definition is translated from the
named Python source function; time is modelled as `Int` seconds, Python
dictionaries as association lists with dictionary update semantics, and
the external collaborators (the network, `json.loads`) as explicit
parameters.
-/

namespace AliSpec

/-! ## cache_manager.CacheWithExpiry

The Python class keeps `self.cache : dict key -> (value, timestamp)` and
`self.expiry_seconds`.  Timestamps (`time.time()`) are modelled as `Int`
and every method takes the current clock reading `now` explicitly.  The
`asyncio.Lock` only serialises the methods; each method body runs
atomically under it, so the sequential functions below are the faithful
model of one (serialised) call.
-/

structure CacheWithExpiry (K V : Type) where
  cache : List (K × V × Int)
  expiry_seconds : Int

variable {K V : Type} [DecidableEq K]

/-- `del self.cache[key]` on a Python dict: drop every binding of `k`
(a dict holds at most one). -/
def eraseKey (c : List (K × V × Int)) (k : K) : List (K × V × Int) :=
  c.filter (fun e => !(decide (e.1 = k)))

/-- Dict lookup `self.cache[key]`: first binding of `k`. -/
def lookupEntry (c : List (K × V × Int)) (k : K) : Option (V × Int) :=
  (c.find? (fun e => decide (e.1 = k))).map (fun e => e.2)

/-- `CacheWithExpiry.get` (src/cache_manager.py lines 16-28): returns the
value if present and `now - timestamp < expiry_seconds`, otherwise deletes
an expired entry and returns `None`.  The returned cache is the state
after the call (the eviction side effect). -/
def CacheWithExpiry.get (c : CacheWithExpiry K V) (key : K) (now : Int) :
    Option V × CacheWithExpiry K V :=
  match lookupEntry c.cache key with
  | some (v, t) =>
      if now - t < c.expiry_seconds then (some v, c)
      else (none, { c with cache := eraseKey c.cache key })
  | none => (none, c)

/-- `CacheWithExpiry.set` (lines 30-34): `self.cache[key] = (value, time.time())`.
Dictionary assignment: the old binding (if any) is replaced. -/
def CacheWithExpiry.set (c : CacheWithExpiry K V) (key : K) (v : V) (now : Int) :
    CacheWithExpiry K V :=
  { c with cache := (key, v, now) :: eraseKey c.cache key }

/-- `CacheWithExpiry.clear_expired` (lines 36-51): collects the keys whose
age is `>= expiry_seconds`, deletes them, and returns how many were
deleted (the `KeyError` guard is dead code on a dict). -/
def CacheWithExpiry.clear_expired (c : CacheWithExpiry K V) (now : Int) :
    Nat × CacheWithExpiry K V :=
  let expired := c.cache.filter (fun e => decide (now - e.2.2 ≥ c.expiry_seconds))
  (expired.length,
   { c with cache := c.cache.filter (fun e => decide (now - e.2.2 < c.expiry_seconds)) })

/-! ## String helpers

URLs are modelled as `List Char`.  The helpers below model the Python
string operations used by src/url_processor.py: substring membership
(`pat in s`), `str.replace`, and `re.sub` for the one pattern the code
uses.  Only ASCII inputs are modelled (`\d`, `\w`, `str.isdigit` and
`str.lower` are restricted to their ASCII meaning). -/

/-- Python substring test `pat in s`. -/
def containsSub (pat : List Char) : List Char → Bool
  | [] => pat.isEmpty
  | c :: cs => pat.isPrefixOf (c :: cs) || containsSub pat cs

/-- One pass of Python `s.replace(pat, rep)` with fuel; `pat` is nonempty
at every call site, and the fuel starts at `s.length`, which the scan
never exhausts. -/
def replaceFrom (pat rep : List Char) : Nat → List Char → List Char
  | _, [] => []
  | 0, s => s
  | Nat.succ n, c :: cs =>
      if pat.isPrefixOf (c :: cs) then rep ++ replaceFrom pat rep n ((c :: cs).drop pat.length)
      else c :: replaceFrom pat rep n cs

/-- Python `s.replace(pat, rep)`: leftmost, non-overlapping, all occurrences. -/
def pyReplace (s pat rep : List Char) : List Char := replaceFrom pat rep s.length s

/-- `s.split(d)` keeping empty chunks, as Python `str.split` with an
explicit separator does. -/
def splitOnChar (d : Char) : List Char → List (List Char)
  | [] => [[]]
  | c :: cs =>
      if c = d then [] :: splitOnChar d cs
      else
        match splitOnChar d cs with
        | [] => [[c]]
        | g :: gs => (c :: g) :: gs

/-- `s.split(d, 1)`: the part before the first `d` and the part after it,
or `none` when `d` does not occur. -/
def splitFirst (d : Char) : List Char → Option (List Char × List Char)
  | [] => none
  | c :: cs =>
      if c = d then some ([], cs)
      else (splitFirst d cs).map (fun p => (c :: p.1, p.2))

/-! ## urllib.parse model

`urlparse`/`urlunparse` and `parse_qs` are standard-library collaborators
of src/url_processor.py; they are modelled here following the CPython
`urlsplit`/`urlunsplit`/`parse_qsl` algorithms.  Percent-decoding and the
`params` component are not modelled (the repository never relies on
either: extracted queries are only compared and tested for digits). -/

structure UrlParts where
  scheme : List Char
  netloc : List Char
  path : List Char
  query : List Char
  fragment : List Char
deriving DecidableEq

/-- The characters CPython allows in a URL scheme. -/
def isSchemeChar (c : Char) : Bool :=
  c.isAlphanum || c = '+' || c = '-' || c = '.'

/-- Characters at which `_splitnetloc` stops. -/
def isNetlocDelim (c : Char) : Bool := c = '/' || c = '?' || c = '#'

/-- CPython `urlsplit` (hence `urlparse` with empty `params` handling):
removes tab/CR/LF, splits off a valid scheme, the `//`-introduced netloc
(raising `ValueError`, modelled as `.error ()`, on an unbalanced bracket),
then the fragment at the first `#` and the query at the first `?`. -/
def urlparse (s0 : List Char) : Except Unit UrlParts :=
  let s := s0.filter (fun c => !(c = '\t' || c = '\r' || c = '\n'))
  let (scheme, rest) :=
    match splitFirst ':' s with
    | some (pre, post) =>
        match pre with
        | [] => (([] : List Char), s)
        | c :: cs =>
            if c.isAlpha && (c :: cs).all isSchemeChar then
              ((c :: cs).map Char.toLower, post)
            else ([], s)
    | none => ([], s)
  if ("//".toList).isPrefixOf rest then
    let nl := (rest.drop 2).takeWhile (fun c => !(isNetlocDelim c))
    let rest1 := (rest.drop 2).dropWhile (fun c => !(isNetlocDelim c))
    if (nl.contains '[' && !(nl.contains ']')) ||
       (nl.contains ']' && !(nl.contains '[')) then
      .error ()
    else
      let (rest2, fragment) := match splitFirst '#' rest1 with
        | some (a, b) => (a, b)
        | none => (rest1, [])
      let (path, query) := match splitFirst '?' rest2 with
        | some (a, b) => (a, b)
        | none => (rest2, [])
      .ok { scheme := scheme, netloc := nl, path := path,
            query := query, fragment := fragment }
  else
    let (rest2, fragment) := match splitFirst '#' rest with
      | some (a, b) => (a, b)
      | none => (rest, [])
    let (path, query) := match splitFirst '?' rest2 with
      | some (a, b) => (a, b)
      | none => (rest2, [])
    .ok { scheme := scheme, netloc := [], path := path,
          query := query, fragment := fragment }

/-- CPython `parse_qsl` with default arguments: split the query on `&`,
drop chunks without `=` and chunks with an empty value
(`keep_blank_values=False`); percent-decoding is not modelled. -/
def parse_qsl (qs : List Char) : List (List Char × List Char) :=
  (splitOnChar '&' qs).filterMap (fun chunk =>
    match splitFirst '=' chunk with
    | some (n, v) => if v.isEmpty then none else some (n, v)
    | none => none)

/-- `parse_qs(qs)[name][0]`: the first value bound to `name`, when the
key is present. -/
def firstQueryValue (name : List Char) (qs : List Char) : Option (List Char) :=
  ((parse_qsl qs).find? (fun p => p.1 = name)).map (fun p => p.2)

/-! ## url_processor.extract_product_id

The regex searches of src/url_processor.py lines 111-149 are compiled to
explicit leftmost-match scanners.  Each pattern starts with a literal, and
its character classes are disjoint from the literal that follows them
(`\d+` cannot eat the dot of `\.html`, `[^/]+` cannot eat a slash), so
maximal-munch scanning without backtracking matches `re.search`. -/

/-- An anchored attempt of `PRODUCT_ID_REGEX = /item/(\d+)\.html`;
returns the captured digit group. -/
def itemMatchAt (cs : List Char) : Option (List Char) :=
  if ("/item/".toList).isPrefixOf cs then
    let rest := cs.drop 6
    let ds := rest.takeWhile Char.isDigit
    if !ds.isEmpty && (".html".toList).isPrefixOf (rest.drop ds.length) then some ds
    else none
  else none

/-- An anchored attempt of the alternate pattern `/p/[^/]+/([0-9]+)\.html`. -/
def pAltMatchAt (cs : List Char) : Option (List Char) :=
  if ("/p/".toList).isPrefixOf cs then
    let rest := cs.drop 3
    let seg := rest.takeWhile (fun c => !(c = '/'))
    if seg.isEmpty then none
    else
      match rest.drop seg.length with
      | '/' :: rest2 =>
          let ds := rest2.takeWhile Char.isDigit
          if !ds.isEmpty && (".html".toList).isPrefixOf (rest2.drop ds.length) then some ds
          else none
      | _ => none
  else none

/-- An anchored attempt of the alternate pattern `product/([0-9]+)`. -/
def productAltMatchAt (cs : List Char) : Option (List Char) :=
  if ("product/".toList).isPrefixOf cs then
    let ds := (cs.drop 8).takeWhile Char.isDigit
    if ds.isEmpty then none else some ds
  else none

/-- `re.search`: try the anchored matcher at every start position, left to
right (including the end-of-string position). -/
def searchWith (matchAt : List Char → Option (List Char)) : List Char → Option (List Char)
  | [] => matchAt []
  | c :: cs =>
      match matchAt (c :: cs) with
      | some r => some r
      | none => searchWith matchAt cs

/-- The `.aliexpress.us` → `.aliexpress.com` normalisation applied at the
top of `extract_product_id` (and inside `resolve_short_link`). -/
def usNormalize (url : List Char) : List Char :=
  if containsSub (".aliexpress.us".toList) url then
    pyReplace url (".aliexpress.us".toList) (".aliexpress.com".toList)
  else url

/-- Method (a) of `extract_product_id`: the all-digits `productIds` query
parameter; requires `urlparse`, which can raise (propagated as `.error`). -/
def productIdsParamMethod (url : List Char) : Except Unit (Option (List Char)) :=
  match urlparse url with
  | .error e => .error e
  | .ok parts =>
      .ok (match firstQueryValue ("productIds".toList) parts.query with
           | some v => if !v.isEmpty && v.all Char.isDigit then some v else none
           | none => none)

/-- `URLProcessor.extract_product_id` (src/url_processor.py lines 111-149):
normalise `.aliexpress.us`, then try the `productIds` query parameter, the
`/item/<digits>.html` pattern and the two alternate patterns in order.
The `urlparse` call is not guarded, so a `ValueError` from it (unbalanced
bracket in the netloc) propagates out of the function: that is the
`.error` case. -/
def extract_product_id (url0 : List Char) : Except Unit (Option (List Char)) :=
  let url := usNormalize url0
  match productIdsParamMethod url with
  | .error e => .error e
  | .ok (some v) => .ok (some v)
  | .ok none =>
      .ok (match searchWith itemMatchAt url with
           | some v => some v
           | none =>
               match searchWith pAltMatchAt url with
               | some v => some v
               | none => searchWith productAltMatchAt url)

/-! ## url_processor.clean_aliexpress_url -/

/-- CPython `urlunsplit` restricted to `(scheme, netloc, path, "", "")`,
which is how `clean_aliexpress_url` calls `urlunparse`. -/
def urlunparseSNP (scheme netloc path : List Char) : List Char :=
  let u :=
    if !netloc.isEmpty || ("//".toList).isPrefixOf path then
      "//".toList ++ netloc ++
        (if !path.isEmpty && !(("/".toList).isPrefixOf path) then '/' :: path else path)
    else path
  if scheme.isEmpty then u else scheme ++ ':' :: u

/-- `URLProcessor.clean_aliexpress_url` (src/url_processor.py lines
155-166): keep scheme (defaulting to `https` when empty) and netloc,
replace the path by `/item/<product_id>.html`, drop query and fragment;
a `ValueError` from `urlparse` is caught and yields `None`. -/
def clean_aliexpress_url (url product_id : List Char) : Option (List Char) :=
  match urlparse url with
  | .error _ => none
  | .ok parts =>
      let path := "/item/".toList ++ product_id ++ ".html".toList
      some (urlunparseSNP
              (if parts.scheme.isEmpty then "https".toList else parts.scheme)
              parts.netloc path)

/-! ## url_processor.resolve_short_link

`STANDARD_ALIEXPRESS_DOMAIN_REGEX.match` is compiled to a scanner.  The
regex is
`https?://(?!a\.|s\.click\.)([\w-]+\.)?aliexpress\.(com|ru|...|ar\.aliexpress\.com)(\.([\w-]+))?(/.*)?`
with `re.IGNORECASE`; everything after the TLD alternation is optional and
`re.match` only anchors at the start, so the match succeeds exactly when
the mandatory prefix matches.  The optional subdomain group `([\w-]+\.)?`
is deterministic because `[\w-]` excludes the dot: it participates exactly
when a maximal word run is followed by `.aliexpress.` (and when it is
skipped instead, no TLD alternative can start at `aliexpress.`, so the
greedy choice is complete). -/

/-- The regex class `[\w-]` (ASCII reading). -/
def isWordChar (c : Char) : Bool := c.isAlphanum || c = '_' || c = '-'

/-- The TLD alternation of `STANDARD_ALIEXPRESS_DOMAIN_REGEX`. -/
def standardTlds : List (List Char) :=
  ["com", "ru", "es", "fr", "pt", "it", "pl", "nl", "co.kr", "co.jp",
   "com.br", "com.tr", "com.vn", "us", "id.aliexpress.com",
   "th.aliexpress.com", "ar.aliexpress.com"].map String.toList

/-- `STANDARD_ALIEXPRESS_DOMAIN_REGEX.match(url)` as a Boolean.
Case-insensitivity is realised by lowercasing the candidate first. -/
def standardDomainMatch (url : List Char) : Bool :=
  let s := url.map Char.toLower
  if ("http".toList).isPrefixOf s then
    let r1 := s.drop 4
    let r2opt : Option (List Char) :=
      if ("s://".toList).isPrefixOf r1 then some (r1.drop 4)
      else if ("://".toList).isPrefixOf r1 then some (r1.drop 3)
      else none
    match r2opt with
    | none => false
    | some r2 =>
        if ("a.".toList).isPrefixOf r2 || ("s.click.".toList).isPrefixOf r2 then false
        else
          let run := r2.takeWhile isWordChar
          let afterSub :=
            if !run.isEmpty &&
               (('.' :: "aliexpress.".toList).isPrefixOf (r2.drop run.length)) then
              r2.drop (run.length + 1)
            else r2
          if ("aliexpress.".toList).isPrefixOf afterSub then
            standardTlds.any (fun t => t.isPrefixOf (afterSub.drop 11))
          else false
  else false

/-- `re.sub(r'_randl_shipto=[^&]+', f'_randl_shipto={country}', url)` with
fuel (started at the length of the scanned list, never exhausted):
leftmost, non-overlapping replacements. -/
def randlSubFrom (country : List Char) : Nat → List Char → List Char
  | _, [] => []
  | 0, s => s
  | Nat.succ n, c :: cs =>
      if ("_randl_shipto=".toList).isPrefixOf (c :: cs) then
        let rest := (c :: cs).drop 14
        let run := rest.takeWhile (fun ch => !(ch = '&'))
        if run.isEmpty then c :: randlSubFrom country n cs
        else "_randl_shipto=".toList ++ country ++ randlSubFrom country n (rest.drop run.length)
      else c :: randlSubFrom country n cs

def randlSub (country url : List Char) : List Char :=
  randlSubFrom country url.length url

/-- Outcome of one `session.get(..., allow_redirects=True, timeout=10)`:
either an exception (`asyncio.TimeoutError`, `aiohttp.ClientError` or any
other, all of which the code catches) or a completed response with its
status and final URL (`str(response.url)`). -/
inductive FetchResult where
  | err
  | ok (status : Nat) (url : List Char)

/-- The collaborators of one `resolve_short_link` call: the first fetch,
the optional country-correction re-fetch, and the configured
`query_country`. -/
structure ResolveEnv where
  fetch1 : FetchResult
  fetch2 : FetchResult
  query_country : List Char

/-- Truthiness of the cached value in `if cached_final_url:` / of
`response.url` (a string: nonempty). -/
def truthyStr (s : Option (List Char)) : Bool :=
  match s with
  | some v => !v.isEmpty
  | none => false

/-- `URLProcessor.resolve_short_link` (src/url_processor.py lines 29-109).
State: the resolved-URL cache.  Control flow: truthy cache hit returns it;
a fetch exception or a non-200/empty-URL response returns `None`; the
final URL is `.us`-normalised, the `_randl_shipto` parameter rewritten and
re-fetched once (best effort), and the result is cached and returned only
when the standard-domain regex matches and a product id is extractable.
A `ValueError` escaping `extract_product_id` is caught by the outer
`except Exception` and also yields `None` without caching. -/
def resolve_short_link (cache : CacheWithExpiry (List Char) (List Char)) (now : Int)
    (short_url : List Char) (env : ResolveEnv) :
    Option (List Char) × CacheWithExpiry (List Char) (List Char) :=
  let (hit, cache1) := cache.get short_url now
  if truthyStr hit then (hit, cache1)
  else
    match env.fetch1 with
    | .err => (none, cache1)
    | .ok status url =>
        if status = 200 && !url.isEmpty then
          let f1 := usNormalize url
          let f2 :=
            if containsSub ("_randl_shipto=".toList) f1 then
              let fsub := randlSub env.query_country f1
              match env.fetch2 with
              | .ok s2 u2 => if s2 = 200 && !u2.isEmpty then u2 else fsub
              | .err => fsub
            else f1
          match extract_product_id f2 with
          | .error _ => (none, cache1)
          | .ok pid =>
              if standardDomainMatch f2 && truthyStr pid then
                (some f2, cache1.set short_url f2 now)
              else (none, cache1)
        else (none, cache1)

/-! ## JSON values and Python dynamic operations

`aliexpress_client.py` handles vendor response bodies dynamically.  `JVal`
models a decoded JSON value (numbers restricted to integers, strings to
their character lists).  `pyIn`/`pyGet` model `key in x` and `x.get(key)`
with the exceptions Python raises when `x` has the wrong type, because
`_parse_api_promotion_response` runs without a surrounding `try` and those
exceptions matter for the failure-semantics claims. -/

inductive JVal where
  | null
  | bool (b : Bool)
  | num (n : Int)
  | str (s : List Char)
  | arr (xs : List JVal)
  | obj (fields : List (List Char × JVal))

/-- Python truthiness of a JSON value. -/
def truthy : JVal → Bool
  | .null => false
  | .bool b => b
  | .num n => !(n = 0)
  | .str s => !s.isEmpty
  | .arr xs => !xs.isEmpty
  | .obj fs => !fs.isEmpty

/-- Truthiness of the result of a `.get` (missing key → `None` → falsy). -/
def truthyO : Option JVal → Bool
  | some j => truthy j
  | none => false

/-- The exceptions the embedded code can raise. -/
inductive PyErr where
  | typeError
  | attributeError
deriving DecidableEq

/-- Python `key in x` for a string key: key membership on a dict, element
equality on a list, substring test on a string, `TypeError` otherwise. -/
def pyIn (key : List Char) : JVal → Except PyErr Bool
  | .obj fs => .ok (fs.any (fun f => f.1 = key))
  | .arr xs => .ok (xs.any (fun x => match x with | .str s => s = key | _ => false))
  | .str s => .ok (containsSub key s)
  | _ => .error .typeError

/-- Python `x.get(key)` (default `None`): only dicts have `.get`. -/
def pyGet (x : JVal) (key : List Char) : Except PyErr (Option JVal) :=
  match x with
  | .obj fs => .ok ((fs.find? (fun f => f.1 = key)).map (fun f => f.2))
  | _ => .error .attributeError

/-- Lookup in a plain dict of JSON fields (used on the link-info items,
which are known to be dicts after the `isinstance` filter). -/
def jDictGet (fs : List (List Char × JVal)) (key : List Char) : Option JVal :=
  (fs.find? (fun f => f.1 = key)).map (fun f => f.2)

/-- `resp_code != 200` is false exactly for the JSON number 200
(booleans compare as 0/1, strings never equal an int). -/
def isNum200 : Option JVal → Bool
  | some (.num n) => n = 200
  | _ => false

/-- A raw response body, `Union[str, Dict, None]` in the source: absent,
an undecoded string, or an already-decoded JSON value. -/
inductive Body where
  | absent
  | str (s : List Char)
  | json (j : JVal)

/-- Python truthiness of the body (`if not response_body`). -/
def truthyBody : Body → Bool
  | .absent => false
  | .str s => !s.isEmpty
  | .json j => truthy j

/-! ## aliexpress_client._parse_api_promotion_response

src/aliexpress_client.py lines 227-307.  `decode` models `json.loads`
(`none` = `json.JSONDecodeError`, which the code catches and turns into
`[]`).  The function body runs without a `try`, so a `TypeError` from
`'error_response' in response_data` or an `AttributeError` from `.get` on
a non-dict propagates: those are the `.error` results. -/

def parse_api_promotion_response (decode : List Char → Option JVal) (body : Body) :
    Except PyErr (List (List (List Char × JVal))) :=
  if !truthyBody body then .ok []
  else
    let dataO : Option JVal :=
      match body with
      | .str s => decode s
      | .json j => some j
      | .absent => none
    match dataO with
    | none => .ok []
    | some data =>
      match pyIn ("error_response".toList) data with
      | .error e => .error e
      | .ok true =>
          match pyGet data ("error_response".toList) with
          | .error e => .error e
          | .ok _ => .ok []
      | .ok false =>
        match pyGet data ("aliexpress_affiliate_link_generate_response".toList) with
        | .error e => .error e
        | .ok genO =>
          if !truthyO genO then .ok []
          else
            match genO with
            | none => .ok []
            | some gen =>
              match pyGet gen ("resp_result".toList) with
              | .error e => .error e
              | .ok rrO =>
                if !truthyO rrO then .ok []
                else
                  match rrO with
                  | none => .ok []
                  | some rr =>
                    match pyGet rr ("resp_code".toList) with
                    | .error e => .error e
                    | .ok codeO =>
                      if !isNum200 codeO then .ok []
                      else
                        match pyGet rr ("result".toList) with
                        | .error e => .error e
                        | .ok resO =>
                          let res := resO.getD (.obj [])
                          if !truthy res then .ok []
                          else
                            match pyGet res ("promotion_links".toList) with
                            | .error e => .error e
                            | .ok plO =>
                              match pyGet (plO.getD (.obj [])) ("promotion_link".toList) with
                              | .error e => .error e
                              | .ok ldO =>
                                match ldO.getD (.arr []) with
                                | .arr xs =>
                                    if xs.isEmpty then .ok []
                                    else .ok (xs.filterMap (fun x =>
                                      match x with
                                      | .obj fs => some fs
                                      | _ => none))
                                | _ => .ok []

/-! ## aliexpress_client.fetch_product_details

src/aliexpress_client.py lines 40-155.  The parsing after the
`if not response or not response.body` guard runs inside
`try ... except Exception: return None`, so every `.error` of the inner
function is caught. -/

structure ProductInfo where
  image_url : Option JVal
  price : Option JVal
  currency : JVal
  title : JVal

/-- `products[0]`: head of a list; on a JSON-decoded dict the integer key
raises `KeyError`, on other non-sequences `TypeError` — all are modelled
as `.error .typeError` since the caller catches every exception alike. -/
def pySubscript0 : JVal → Except PyErr JVal
  | .arr (x :: _) => .ok x
  | .str (c :: _) => .ok (.str [c])
  | _ => .error .typeError

/-- The body of the `try` block of `fetch_product_details` (lines 75-149),
without the cache write: layered envelope validation ending in the
`product_info` record. -/
def fetch_details_inner (decode : List Char → Option JVal) (body : Body)
    (product_id currency : List Char) : Except PyErr (Option ProductInfo) :=
  let dataO : Option JVal :=
    match body with
    | .str s => decode s
    | .json j => some j
    | .absent => none
  match dataO with
  | none => .ok none
  | some data =>
    match pyIn ("error_response".toList) data with
    | .error e => .error e
    | .ok true =>
        match pyGet data ("error_response".toList) with
        | .error e => .error e
        | .ok _ => .ok none
    | .ok false =>
      match pyGet data ("aliexpress_affiliate_productdetail_get_response".toList) with
      | .error e => .error e
      | .ok drO =>
        if !truthyO drO then .ok none
        else
          match drO with
          | none => .ok none
          | some dr =>
            match pyGet dr ("resp_result".toList) with
            | .error e => .error e
            | .ok rrO =>
              if !truthyO rrO then .ok none
              else
                match rrO with
                | none => .ok none
                | some rr =>
                  match pyGet rr ("resp_code".toList) with
                  | .error e => .error e
                  | .ok codeO =>
                    if !isNum200 codeO then .ok none
                    else
                      match pyGet rr ("result".toList) with
                      | .error e => .error e
                      | .ok resO =>
                        match pyGet (resO.getD (.obj [])) ("products".toList) with
                        | .error e => .error e
                        | .ok psO =>
                          match pyGet (psO.getD (.obj [])) ("product".toList) with
                          | .error e => .error e
                          | .ok prodO =>
                            let products := prodO.getD (.arr [])
                            if !truthy products then .ok none
                            else
                              match pySubscript0 products with
                              | .error e => .error e
                              | .ok pd =>
                                match pd with
                                | .obj fs =>
                                    .ok (some
                                      { image_url := jDictGet fs ("product_main_image_url".toList)
                                        price := jDictGet fs ("target_sale_price".toList)
                                        currency :=
                                          (jDictGet fs ("target_sale_price_currency".toList)).getD
                                            (.str currency)
                                        title :=
                                          (jDictGet fs ("product_title".toList)).getD
                                            (.str ("Product ".toList ++ product_id)) })
                                | _ => .error .attributeError

/-- The response handling of `fetch_product_details`: the falsy-body guard
(line 69) runs first, then the `try` block with its catch-all. -/
def fetch_details_parse (decode : List Char → Option JVal) (body : Body)
    (product_id currency : List Char) : Option ProductInfo :=
  if !truthyBody body then none
  else
    match fetch_details_inner decode body product_id currency with
    | .error _ => none
    | .ok r => r

/-- `fetch_product_details` with its product cache.  `transport = none`
models `_execute_api_call` returning `None` (a caught exception in the
worker thread); a cached product dict always has four keys, so the
`if cached_data:` truthiness test is a plain hit test. -/
def fetch_product_details (cache : CacheWithExpiry (List Char) ProductInfo) (now : Int)
    (product_id currency : List Char) (transport : Option Body)
    (decode : List Char → Option JVal) :
    Option ProductInfo × CacheWithExpiry (List Char) ProductInfo :=
  let (hit, cache1) := cache.get product_id now
  match hit with
  | some p => (some p, cache1)
  | none =>
      let body := transport.getD Body.absent
      match fetch_details_parse decode body product_id currency with
      | none => (none, cache1)
      | some info => (some info, cache1.set product_id info now)

/-! ## aliexpress_client.generate_affiliate_links_batch

The results dictionary (`Dict[str, Union[str, None]]` in the annotation,
dynamically any JSON value) is modelled as an association list with
Python-dict update semantics: assignment replaces the binding in place,
insertion appends. -/

def dictContains {α : Type} (d : List (List Char × α)) (k : List Char) : Bool :=
  d.any (fun p => p.1 = k)

/-- Python dict assignment `d[k] = v`: replace the (unique) binding of `k`
in place, or append a new binding at the end. -/
def dictSet {α : Type} : List (List Char × α) → List Char → α → List (List Char × α)
  | [], k, v => [(k, v)]
  | p :: ps, k, v => if p.1 = k then (k, v) :: ps else p :: dictSet ps k v

def dictGet {α : Type} (d : List (List Char × α)) (k : List Char) : Option α :=
  (d.find? (fun p => p.1 = k)).map (fun p => p.2)

/-- The link cache used by the batch pipeline: URL → decoded JSON value
(the code never checks that a stored promotion link is a string). -/
abbrev LinkCache := CacheWithExpiry (List Char) JVal

/-- The result mapping under construction: URL → link or `None`. -/
abbrev ResultsDict := List (List Char × Option JVal)

/-- `_check_cache_for_links` (src/aliexpress_client.py lines 159-183):
walk the input URLs, pre-fill `results_dict` with truthy cache hits, and
collect the misses (initialised to `None`) into `uncached_urls`.  The
cache state is threaded because `get` may evict expired entries. -/
def checkStep (now : Int) (acc : ResultsDict × List (List Char) × LinkCache)
    (url : List Char) : ResultsDict × List (List Char) × LinkCache :=
  let (res, unc, ch) := acc
  let (hit, ch1) := ch.get url now
  match hit with
  | some v =>
      if truthy v then (dictSet res url (some v), unc, ch1)
      else (dictSet res url none, unc ++ [url], ch1)
  | none => (dictSet res url none, unc ++ [url], ch1)

def check_cache_for_links (cache : LinkCache) (now : Int)
    (target_urls : List (List Char)) :
    ResultsDict × List (List Char) × LinkCache :=
  target_urls.foldl (checkStep now) ([], [], cache)

/-- `_update_results_and_cache` (lines 309-351): for each returned item,
when both `source_value` and `promotion_link` are truthy and the source
is a key of `results_dict`, record the link and cache it; otherwise skip
(the trailing loop over `uncached_urls` only logs). -/
def updateStep (now : Int) (acc : ResultsDict × LinkCache)
    (link_info : List (List Char × JVal)) : ResultsDict × LinkCache :=
  let (res, ch) := acc
  match jDictGet link_info ("source_value".toList),
        jDictGet link_info ("promotion_link".toList) with
  | some sv, some pv =>
      if truthy sv && truthy pv then
        match sv with
        | .str s =>
            if dictContains res s then (dictSet res s (some pv), ch.set s pv now)
            else (res, ch)
        | _ => (res, ch)
      else (res, ch)
  | _, _ => (res, ch)

def update_results_and_cache (results : ResultsDict) (cache : LinkCache) (now : Int)
    (api_links_data : List (List (List Char × JVal))) : ResultsDict × LinkCache :=
  api_links_data.foldl (updateStep now) (results, cache)

/-- The observable outcome of one `generate_affiliate_links_batch` call:
the returned mapping (or the propagated exception), the final link-cache
state, and how many vendor batch API calls were issued. -/
structure BatchOutcome where
  result : Except PyErr ResultsDict
  cache : LinkCache
  apiCalls : Nat

/-- `generate_affiliate_links_batch` (lines 355-391): check the cache;
with no uncached URL return at once (zero vendor calls); otherwise issue
exactly one batch call (`transport = none` models `_execute_batch_link_api_call`
returning `None`, in which case the parser receives `None` as body), parse,
and merge.  An exception escaping the parser propagates to the caller. -/
def generate_affiliate_links_batch (cache : LinkCache) (now : Int)
    (target_urls : List (List Char)) (transport : Option Body)
    (decode : List Char → Option JVal) : BatchOutcome :=
  let (results, uncached, cache1) := check_cache_for_links cache now target_urls
  if uncached.isEmpty then ⟨.ok results, cache1, 0⟩
  else
    match parse_api_promotion_response decode (transport.getD Body.absent) with
    | .error e => ⟨.error e, cache1, 1⟩
    | .ok links =>
        let (results2, cache2) := update_results_and_cache results cache1 now links
        ⟨.ok results2, cache2, 1⟩

/-- A *fresh, truthy* entry for `k`: the characterisation of the URLs the
batch pipeline treats as link-cached (`if cached_link:` after a `get`). -/
def linkCacheHit (c : LinkCache) (k : List Char) (now : Int) : Bool :=
  match lookupEntry c.cache k with
  | some (v, t) => decide (now - t < c.expiry_seconds) && truthy v
  | none => false

/-- Test for the JSON value being a string (used to state that a cached
promotion link is not one). -/
def isStrJ : JVal → Bool
  | .str _ => true
  | _ => false

/-- A well-formed vendor batch-link response envelope carrying the given
`promotion_link` items; concrete test vector builder. -/
def mkLinkEnvelope (items : List JVal) : Body :=
  Body.json (.obj
    [("aliexpress_affiliate_link_generate_response".toList, .obj
      [("resp_result".toList, .obj
        [("resp_code".toList, .num 200),
         ("result".toList, .obj
           [("promotion_links".toList, .obj
             [("promotion_link".toList, .arr items)])])])])])

/-! ## Helper lemmas -/

theorem dictContains_dictSet {α : Type} (d : List (List Char × α)) (s k : List Char) (v : α) :
    dictContains (dictSet d s v) k = (dictContains d k || decide (k = s)) := by
  induction d with
  | nil => simp [dictSet, dictContains, eq_comm]
  | cons p ps ih =>
      by_cases h : p.1 = s
      · simp only [dictSet, h, if_true, dictContains, List.any_cons] at *
        by_cases hk : k = s <;> simp [h, hk, eq_comm]
      · simp only [dictSet, h, if_false, dictContains, List.any_cons] at *
        rw [ih]
        by_cases hk : p.1 = k <;> simp [hk, Bool.or_assoc]

theorem dictGet_dictSet {α : Type} (d : List (List Char × α)) (s k : List Char) (v : α) :
    dictGet (dictSet d s v) k = if k = s then some v else dictGet d k := by
  induction d with
  | nil =>
      by_cases hk : k = s <;> simp [dictSet, dictGet, hk, eq_comm]
  | cons p ps ih =>
      by_cases h : p.1 = s
      · by_cases hk : k = s
        · subst hk; simp [dictSet, h, dictGet]
        · have hpk : ¬ (p.1 = k) := by rw [h]; exact fun hh => hk hh.symm
          have hsk : ¬ ((s : List Char) = k) := fun hh => hk hh.symm
          simp [dictSet, h, dictGet, hk, hpk, hsk, List.find?_cons]
      · by_cases hpk : p.1 = k
        · have hk : ¬ (k = s) := by rw [← hpk]; exact h
          simp [dictSet, h, dictGet, hk, hpk, List.find?_cons]
        · simp only [dictSet, h, if_false, dictGet, List.find?_cons, hpk] at *
          simpa [dictGet, hpk] using ih

theorem lookupEntry_eraseKey_self {K V : Type} [DecidableEq K]
    (c : List (K × V × Int)) (u : K) : lookupEntry (eraseKey c u) u = none := by
  induction c with
  | nil => rfl
  | cons e es ih =>
      by_cases h : e.1 = u
      · simp only [eraseKey, List.filter_cons, h] at ih ⊢
        simp [ih]
      · simp [eraseKey, lookupEntry, List.filter_cons, h, List.find?_cons, ih]

theorem lookupEntry_eraseKey_ne {K V : Type} [DecidableEq K]
    (c : List (K × V × Int)) (u k : K) (hne : ¬ (k = u)) :
    lookupEntry (eraseKey c u) k = lookupEntry c k := by
  have huk : ¬ (u = k) := fun hh => hne hh.symm
  induction c with
  | nil => rfl
  | cons e es ih =>
      by_cases h : e.1 = u
      · simpa [eraseKey, lookupEntry, List.filter_cons, h, List.find?_cons, huk, hne] using ih
      · by_cases hek : e.1 = k
        · simp [eraseKey, lookupEntry, List.filter_cons, h, List.find?_cons, hek, huk, hne]
        · simpa [eraseKey, lookupEntry, List.filter_cons, h, List.find?_cons, hek, huk, hne]
            using ih

/-- Entries surviving a `get` were already in the cache. -/
theorem mem_get_snd {K V : Type} [DecidableEq K] (c : CacheWithExpiry K V)
    (u : K) (now : Int) (e : K × V × Int) (he : e ∈ ((c.get u now).2).cache) :
    e ∈ c.cache := by
  simp only [CacheWithExpiry.get] at he
  rcases h : lookupEntry c.cache u with _ | ⟨v, t⟩ <;> rw [h] at he
  · exact he
  · by_cases hf : now - t < c.expiry_seconds
    · simpa [hf] using he
    · simp only [hf, if_false] at he
      exact (List.mem_filter.mp he).1

/-- The truthiness test applied to a `get` result is the fresh-truthy-entry
predicate on the cache contents. -/
theorem truthyO_get_fst (c : LinkCache) (k : List Char) (now : Int) :
    truthyO ((c.get k now).1) = linkCacheHit c k now := by
  simp only [CacheWithExpiry.get, linkCacheHit]
  rcases h : lookupEntry c.cache k with _ | ⟨v, t⟩
  · simp [truthyO]
  · by_cases hf : now - t < c.expiry_seconds <;> simp [hf, truthyO]

/-- A `get` never changes which keys are fresh truthy hits: it removes only
an entry that was already stale. -/
theorem linkCacheHit_get_snd (c : LinkCache) (u k : List Char) (now : Int) :
    linkCacheHit ((c.get u now).2) k now = linkCacheHit c k now := by
  simp only [CacheWithExpiry.get]
  rcases h : lookupEntry c.cache u with _ | ⟨v, t⟩
  · simp
  · by_cases hf : now - t < c.expiry_seconds
    · simp [hf]
    · simp only [hf, if_false]
      by_cases hk : k = u
      · subst hk
        simp [linkCacheHit, lookupEntry_eraseKey_self, h, hf]
      · simp [linkCacheHit, lookupEntry_eraseKey_ne _ _ _ hk]

/-- Behaviour of the `_check_cache_for_links` loop from any starting
accumulator: the uncached list extends with exactly the non-hit URLs in
input order, the result keys are the accumulator keys plus the scanned
URLs, the fresh-truthy-hit predicate is untouched, and the final cache
holds a subset of the original entries. -/
theorem check_fold_spec (now : Int) (urls : List (List Char)) :
    ∀ (res : ResultsDict) (unc : List (List Char)) (c : LinkCache),
      ((urls.foldl (checkStep now) (res, unc, c)).2.1
          = unc ++ urls.filter (fun u => !(linkCacheHit c u now))) ∧
      (∀ k, dictContains (urls.foldl (checkStep now) (res, unc, c)).1 k
          = (dictContains res k || decide (k ∈ urls))) ∧
      (∀ k, linkCacheHit ((urls.foldl (checkStep now) (res, unc, c)).2.2) k now
          = linkCacheHit c k now) ∧
      (∀ e, e ∈ ((urls.foldl (checkStep now) (res, unc, c)).2.2).cache → e ∈ c.cache) := by
  induction urls with
  | nil => intro res unc c; simp
  | cons u rest ih =>
      intro res unc c
      rcases hg : c.get u now with ⟨hit, c1⟩
      have hstab : ∀ k, linkCacheHit c1 k now = linkCacheHit c k now := fun k => by
        have h0 := linkCacheHit_get_snd c u k now; rwa [hg] at h0
      have htr : truthyO hit = linkCacheHit c u now := by
        have h0 := truthyO_get_fst c u now; rwa [hg] at h0
      have hmem : ∀ e, e ∈ c1.cache → e ∈ c.cache := fun e he => by
        have h0 := mem_get_snd c u now e; rw [hg] at h0; exact h0 he
      have hfil : rest.filter (fun x => !(linkCacheHit c1 x now))
          = rest.filter (fun x => !(linkCacheHit c x now)) :=
        List.filter_congr (fun x _ => by rw [hstab])
      have hfold : ∀ a, ((u :: rest).foldl (checkStep now) a)
          = rest.foldl (checkStep now) (checkStep now a u) := fun a => rfl
      cases hit with
      | none =>
          have hmiss : linkCacheHit c u now = false := by
            rw [← htr]; rfl
          have hstep : checkStep now (res, unc, c) u = (dictSet res u none, unc ++ [u], c1) := by
            simp [checkStep, hg]
          rw [hfold, hstep]
          obtain ⟨ha, hb, hc, hd⟩ := ih (dictSet res u none) (unc ++ [u]) c1
          refine ⟨?_, ?_, ?_, ?_⟩
          · rw [ha, hfil]
            simp [List.filter_cons, hmiss]
          · intro k
            rw [hb k, dictContains_dictSet]
            by_cases hk : k = u
            · simp [hk]
            · simp [hk, List.mem_cons, Bool.or_assoc]
          · intro k; rw [hc k, hstab]
          · intro e he; exact hmem e (hd e he)
      | some v =>
          by_cases htv : truthy v = true
          · have hhit : linkCacheHit c u now = true := by
              rw [← htr]; simpa [truthyO] using htv
            have hstep : checkStep now (res, unc, c) u
                = (dictSet res u (some v), unc, c1) := by
              simp [checkStep, hg, htv]
            rw [hfold, hstep]
            obtain ⟨ha, hb, hc, hd⟩ := ih (dictSet res u (some v)) unc c1
            refine ⟨?_, ?_, ?_, ?_⟩
            · rw [ha, hfil]
              simp [List.filter_cons, hhit]
            · intro k
              rw [hb k, dictContains_dictSet]
              by_cases hk : k = u
              · simp [hk]
              · simp [hk, List.mem_cons, Bool.or_assoc]
            · intro k; rw [hc k, hstab]
            · intro e he; exact hmem e (hd e he)
          · have hmiss : linkCacheHit c u now = false := by
              rw [← htr]; simpa [truthyO] using htv
            have hstep : checkStep now (res, unc, c) u
                = (dictSet res u none, unc ++ [u], c1) := by
              simp [checkStep, hg, htv]
            rw [hfold, hstep]
            obtain ⟨ha, hb, hc, hd⟩ := ih (dictSet res u none) (unc ++ [u]) c1
            refine ⟨?_, ?_, ?_, ?_⟩
            · rw [ha, hfil]
              simp [List.filter_cons, hmiss]
            · intro k
              rw [hb k, dictContains_dictSet]
              by_cases hk : k = u
              · simp [hk]
              · simp [hk, List.mem_cons, Bool.or_assoc]
            · intro k; rw [hc k, hstab]
            · intro e he; exact hmem e (hd e he)

/-- Behaviour of the `_update_results_and_cache` loop: it never adds or
removes a result key (assignments are guarded by key membership), and
every cache entry it creates carries a truthy value (the
`if source_url and promo_link` guard). -/
theorem update_fold_spec (now : Int) (links : List (List (List Char × JVal))) :
    ∀ (res : ResultsDict) (c : LinkCache),
      (∀ k, dictContains (links.foldl (updateStep now) (res, c)).1 k = dictContains res k) ∧
      (∀ e, e ∈ ((links.foldl (updateStep now) (res, c)).2).cache →
          e ∈ c.cache ∨ truthy e.2.1 = true) := by
  induction links with
  | nil => intro res c; exact ⟨fun _ => rfl, fun _ he => Or.inl he⟩
  | cons li rest ih =>
      intro res c
      have hfold : ∀ a, ((li :: rest).foldl (updateStep now) a)
          = rest.foldl (updateStep now) (updateStep now a li) := fun a => rfl
      rw [hfold]
      have hid : ∀ (hstep : updateStep now (res, c) li = (res, c)),
          (∀ k, dictContains (rest.foldl (updateStep now) (updateStep now (res, c) li)).1 k
              = dictContains res k) ∧
          (∀ e, e ∈ ((rest.foldl (updateStep now) (updateStep now (res, c) li)).2).cache →
              e ∈ c.cache ∨ truthy e.2.1 = true) := by
        intro hstep; rw [hstep]; exact ih res c
      rcases hsv : jDictGet li ("source_value".toList) with _ | sv <;>
        rcases hpl : jDictGet li ("promotion_link".toList) with _ | pv
      · exact hid (by unfold updateStep; rw [hsv, hpl])
      · exact hid (by unfold updateStep; rw [hsv, hpl])
      · exact hid (by unfold updateStep; rw [hsv, hpl])
      by_cases htv : truthy sv = true ∧ truthy pv = true
      · cases sv with
        | str s =>
            by_cases hcont : dictContains res s = true
            · have hstep : updateStep now (res, c) li
                  = (dictSet res s (some pv), c.set s pv now) := by
                unfold updateStep; rw [hsv, hpl]
                simp only [htv, if_true, hcont]
                simp [htv]
              rw [hstep]
              obtain ⟨hk, hm⟩ := ih (dictSet res s (some pv)) (c.set s pv now)
              refine ⟨?_, ?_⟩
              · intro k
                rw [hk k, dictContains_dictSet]
                by_cases hks : k = s
                · subst hks; simp [hcont]
                · simp [hks]
              · intro e he
                rcases hm e he with hin | htru
                · simp only [CacheWithExpiry.set, List.mem_cons] at hin
                  rcases hin with hhd | htl
                  · right
                    rw [hhd]
                    exact htv.2
                  · left
                    exact (List.mem_filter.mp htl).1
                · exact Or.inr htru
            · refine hid ?_
              unfold updateStep; rw [hsv, hpl]
              simp [htv, hcont]
        | null => exact hid (by unfold updateStep; rw [hsv, hpl]; simp [htv])
        | bool b => exact hid (by unfold updateStep; rw [hsv, hpl]; simp [htv])
        | num n => exact hid (by unfold updateStep; rw [hsv, hpl]; simp [htv])
        | arr xs => exact hid (by unfold updateStep; rw [hsv, hpl]; simp [htv])
        | obj fs => exact hid (by unfold updateStep; rw [hsv, hpl]; simp [htv])
      · refine hid ?_
        unfold updateStep; rw [hsv, hpl]
        simp only [htv, if_false]
        cases sv <;> simp [htv]

/-! ## Claim theorems -/

/-- C3: after `set(k, v)` at `t0` with no later set for `k`, `get(k)` at
`t1 ≥ t0` returns `v` when `t1 - t0 < ttl`; when `t1 - t0 ≥ ttl` it
returns absent and evicts the stale entry (the resulting cache is the
pre-`set` cache with every binding of `k` removed). -/
theorem ttl_roundtrip {K V : Type} [DecidableEq K] (c : CacheWithExpiry K V)
    (k : K) (v : V) (t0 t1 : Int) (h : t0 ≤ t1) :
    (t1 - t0 < c.expiry_seconds →
        (c.set k v t0).get k t1 = (some v, c.set k v t0)) ∧
    (c.expiry_seconds ≤ t1 - t0 →
        ((c.set k v t0).get k t1).1 = none ∧
        ((c.set k v t0).get k t1).2.cache = eraseKey c.cache k) := by
  constructor
  · intro hlt
    simp [CacheWithExpiry.set, CacheWithExpiry.get, lookupEntry, hlt]
  · intro hge
    have hnot : ¬ (t1 - t0 < c.expiry_seconds) := not_lt.mpr hge
    simp [CacheWithExpiry.set, CacheWithExpiry.get, lookupEntry, hnot, eraseKey,
      List.filter_filter]

/-- Witness for `ttl_roundtrip` at a concrete cache, key and instants. -/
theorem ttl_roundtrip_witness :
    ((({ cache := [], expiry_seconds := 60 } : CacheWithExpiry Nat Nat).set 1 5 0).get 1 10
        = (some 5, ({ cache := [], expiry_seconds := 60 } : CacheWithExpiry Nat Nat).set 1 5 0)) ∧
    ((({ cache := [], expiry_seconds := 60 } : CacheWithExpiry Nat Nat).set 1 5 0).get 1 60).1
        = none := by
  have h1 := ttl_roundtrip ({ cache := [], expiry_seconds := 60 } : CacheWithExpiry Nat Nat)
    1 5 0 10 (by decide)
  have h2 := ttl_roundtrip ({ cache := [], expiry_seconds := 60 } : CacheWithExpiry Nat Nat)
    1 5 0 60 (by decide)
  exact ⟨h1.1 (by decide), (h2.2 (by decide)).1⟩

/-- C9: `clear_expired` removes exactly the entries of age `≥ ttl` and
returns their number; nothing expired survives it, so a second sweep at
the same instant (no intervening `set`, no time advance) returns `0`. -/
theorem sweep_idempotent {K V : Type} [DecidableEq K] (c : CacheWithExpiry K V) (now : Int) :
    (((c.clear_expired now).2).clear_expired now).1 = 0 ∧
    (c.clear_expired now).1 =
      (c.cache.filter (fun e => decide (now - e.2.2 ≥ c.expiry_seconds))).length ∧
    (∀ e ∈ ((c.clear_expired now).2).cache, now - e.2.2 < c.expiry_seconds) := by
  refine ⟨?_, rfl, ?_⟩
  · simp only [CacheWithExpiry.clear_expired, List.length_eq_zero, List.filter_filter]
    rw [List.filter_eq_nil_iff]
    intro a ha
    simp only [Bool.and_eq_true, decide_eq_true_eq]
    intro hcl
    omega
  · intro e he
    simp only [CacheWithExpiry.clear_expired, List.mem_filter, decide_eq_true_eq] at he
    exact he.2

/-- C1: whenever `generate_affiliate_links_batch` returns a mapping (it
can instead propagate an exception from the parser, see C5), the key set
of that mapping is exactly the set of input URLs: every input URL is a
key, and no other key occurs. -/
theorem batch_completeness (cache : LinkCache) (now : Int)
    (target_urls : List (List Char)) (transport : Option Body)
    (decode : List Char → Option JVal) (res : ResultsDict)
    (h : (generate_affiliate_links_batch cache now target_urls transport decode).result
        = .ok res) :
    ∀ u, dictContains res u = true ↔ u ∈ target_urls := by
  obtain ⟨-, hkeys, -, -⟩ := check_fold_spec now target_urls [] [] cache
  have hck : ∀ k, dictContains (check_cache_for_links cache now target_urls).1 k
      = decide (k ∈ target_urls) := by
    intro k
    have h0 := hkeys k
    simpa [check_cache_for_links, dictContains] using h0
  unfold generate_affiliate_links_batch at h
  rcases hc : check_cache_for_links cache now target_urls with ⟨results, uncached, cache1⟩
  rw [hc] at h
  rw [hc] at hck
  by_cases he : uncached.isEmpty
  · simp only [he, if_true] at h
    cases h
    intro u
    have := hck u
    simp only at this
    rw [this]
    exact decide_eq_true_iff
  · simp only [he, if_false] at h
    rcases hp : parse_api_promotion_response decode (transport.getD Body.absent)
      with e | links <;> rw [hp] at h
    · cases h
    · simp only at h
      obtain ⟨hupd, -⟩ := update_fold_spec now links results cache1
      intro u
      have h2 : dictContains res u = dictContains results u := by
        cases h
        simpa [update_results_and_cache] using hupd u
      rw [h2]
      have := hck u
      simp only at this
      rw [this]
      exact decide_eq_true_iff

/-- Witness for `batch_completeness`: one uncached URL, a vendor body that
decodes to an empty object, so the parser yields no links. -/
theorem batch_completeness_witness :
    dictContains [(("a".toList : List Char), (none : Option JVal))] ("a".toList) = true
      ↔ ("a".toList) ∈ [("a".toList)] := by
  have h := batch_completeness { cache := [], expiry_seconds := 100 } 0
    [("a".toList)] (some (Body.json (.obj []))) (fun _ => none)
    [(("a".toList : List Char), (none : Option JVal))] rfl
  exact h ("a".toList)

/-- C4: the number of vendor batch calls issued by one
`generate_affiliate_links_batch` invocation is `0` or `1`; it is `0`
exactly when every input URL has a fresh truthy link-cache entry, and `1`
as soon as at least one input URL is uncached, however many there are. -/
theorem batch_single_call (cache : LinkCache) (now : Int)
    (target_urls : List (List Char)) (transport : Option Body)
    (decode : List Char → Option JVal) :
    ((generate_affiliate_links_batch cache now target_urls transport decode).apiCalls = 0 ∨
     (generate_affiliate_links_batch cache now target_urls transport decode).apiCalls = 1) ∧
    ((generate_affiliate_links_batch cache now target_urls transport decode).apiCalls = 0 ↔
      ∀ u ∈ target_urls, linkCacheHit cache u now = true) := by
  obtain ⟨hunc, -, -, -⟩ := check_fold_spec now target_urls [] [] cache
  have hu : (check_cache_for_links cache now target_urls).2.1
      = target_urls.filter (fun u => !(linkCacheHit cache u now)) := by
    simpa [check_cache_for_links] using hunc
  unfold generate_affiliate_links_batch
  rcases hc : check_cache_for_links cache now target_urls with ⟨results, uncached, cache1⟩
  rw [hc] at hu
  simp only at hu
  subst hu
  by_cases he : (target_urls.filter (fun u => !(linkCacheHit cache u now))).isEmpty
  · simp only [he, if_true]
    refine ⟨Or.inl (by trivial), ?_⟩
    simp only [true_iff]
    intro u hin
    rw [List.isEmpty_iff, List.filter_eq_nil_iff] at he
    have := he u hin
    simpa using this
  · have hcalls : (if (target_urls.filter (fun u => !(linkCacheHit cache u now))).isEmpty
        then (⟨.ok results, cache1, 0⟩ : BatchOutcome)
        else match parse_api_promotion_response decode (transport.getD Body.absent) with
          | .error e => ⟨.error e, cache1, 1⟩
          | .ok links =>
              let r2 := update_results_and_cache results cache1 now links
              ⟨.ok r2.1, r2.2, 1⟩).apiCalls = 1 := by
      simp only [he, if_false]
      rcases parse_api_promotion_response decode (transport.getD Body.absent) with e | links
      · rfl
      · rfl
    rw [hcalls]
    refine ⟨Or.inr rfl, ?_⟩
    constructor
    · intro h01; cases h01
    · intro hall
      exfalso
      apply he
      rw [List.isEmpty_iff, List.filter_eq_nil_iff]
      intro u hin
      simp [hall u hin]

/-- Witness for `batch_single_call`: with a fresh truthy entry for the
single input URL, zero vendor calls are issued. -/
theorem batch_single_call_witness :
    (generate_affiliate_links_batch
        { cache := [("a".toList, JVal.str ("L".toList), 0)], expiry_seconds := 100 } 0
        [("a".toList)] none (fun _ => none)).apiCalls = 0 := by
  have h := batch_single_call
    { cache := [("a".toList, JVal.str ("L".toList), 0)], expiry_seconds := 100 } 0
    [("a".toList)] none (fun _ => none)
  apply h.2.mpr
  intro u hin
  simp only [List.mem_singleton] at hin
  subst hin
  decide

/-- C2 evaluation at the failing input: inputs `a` (fresh in the link
cache) and `b` (uncached), so only `b` is sent to the vendor; a returned
pair with `source_value = "a"` — not among the requested URLs — is
nevertheless recorded in the result mapping and written to the link
cache, overwriting the fresh entry, because `_update_results_and_cache`
guards on membership in `results_dict` (all input URLs) instead of the
uncached URLs actually sent. -/
theorem unrequested_source_recorded :
    (check_cache_for_links
        { cache := [("a".toList, JVal.str ("La".toList), 0)], expiry_seconds := 100 } 5
        [("a".toList), ("b".toList)]).2.1 = [("b".toList)] ∧
    (generate_affiliate_links_batch
        { cache := [("a".toList, JVal.str ("La".toList), 0)], expiry_seconds := 100 } 5
        [("a".toList), ("b".toList)]
        (some (mkLinkEnvelope [.obj [("source_value".toList, .str ("a".toList)),
                                     ("promotion_link".toList, .str ("p".toList))]]))
        (fun _ => none)).result
      = .ok [(("a".toList), some (.str ("p".toList))), (("b".toList), none)] ∧
    (generate_affiliate_links_batch
        { cache := [("a".toList, JVal.str ("La".toList), 0)], expiry_seconds := 100 } 5
        [("a".toList), ("b".toList)]
        (some (mkLinkEnvelope [.obj [("source_value".toList, .str ("a".toList)),
                                     ("promotion_link".toList, .str ("p".toList))]]))
        (fun _ => none)).cache.cache
      = [(("a".toList), JVal.str ("p".toList), 5)] :=
  ⟨rfl, rfl, rfl⟩

/-- C5 evaluation at the failing input: a batch response body `"42"`
(valid JSON that decodes to a number) makes
`_parse_api_promotion_response` raise `TypeError` at
`'error_response' in response_data`, and the exception escapes
`generate_affiliate_links_batch`; the same body fed to
`fetch_product_details` parsing is caught by its catch-all and degrades
to absent. -/
theorem batch_parse_typeerror :
    parse_api_promotion_response (fun _ => some (.num 42)) (Body.str ("42".toList))
        = .error .typeError ∧
    (generate_affiliate_links_batch { cache := [], expiry_seconds := 100 } 0
        [("u".toList)] (some (Body.str ("42".toList))) (fun _ => some (.num 42))).result
        = .error .typeError ∧
    fetch_details_parse (fun _ => some (.num 42)) (Body.str ("42".toList))
        ("1".toList) ("USD".toList) = none :=
  ⟨rfl, rfl, rfl⟩

/-- C10 counterexample: a vendor pair whose `promotion_link` is the JSON
number `7` (truthy but not a string) is recorded and written to the link
cache as-is, so not every stored value is a non-empty string. -/
theorem link_cache_nonstring_value :
    (generate_affiliate_links_batch { cache := [], expiry_seconds := 100 } 0 [("b".toList)]
        (some (mkLinkEnvelope [.obj [("source_value".toList, .str ("b".toList)),
                                     ("promotion_link".toList, .num 7)]]))
        (fun _ => none)).cache.cache
      = [(("b".toList), JVal.num 7, 0)] ∧
    isStrJ (JVal.num 7) = false :=
  ⟨rfl, rfl⟩

/-- C10 amended: every value the batch pipeline stores in the link cache
is truthy (the `if source_url and promo_link` guard skips missing or
falsy fields), though not necessarily a string; consequently on a cache
whose values are all truthy — an invariant `generate_affiliate_links_batch`
preserves — the truthiness conjunct of the cache-hit test is redundant
and a previously stored link is never misclassified as a miss. -/
theorem link_cache_truthy_invariant (cache : LinkCache) (now : Int)
    (target_urls : List (List Char)) (transport : Option Body)
    (decode : List Char → Option JVal)
    (hinv : ∀ e ∈ cache.cache, truthy e.2.1 = true) :
    (∀ e ∈ (generate_affiliate_links_batch cache now target_urls transport decode).cache.cache,
        truthy e.2.1 = true) ∧
    (∀ k, linkCacheHit cache k now =
        (match lookupEntry cache.cache k with
         | some (_, t) => decide (now - t < cache.expiry_seconds)
         | none => false)) := by
  constructor
  · obtain ⟨-, -, -, hsub⟩ := check_fold_spec now target_urls [] [] cache
    have hsub2 : ∀ e, e ∈ ((check_cache_for_links cache now target_urls).2.2).cache
        → e ∈ cache.cache := by
      intro e he
      exact hsub e he
    unfold generate_affiliate_links_batch
    rcases hc : check_cache_for_links cache now target_urls with ⟨results, uncached, cache1⟩
    rw [hc] at hsub2
    simp only at hsub2
    by_cases he : uncached.isEmpty
    · simp only [he, if_true]
      intro e hee
      exact hinv e (hsub2 e hee)
    · simp only [he, if_false]
      rcases hp : parse_api_promotion_response decode (transport.getD Body.absent)
        with e | links
      · intro e hee
        exact hinv e (hsub2 e hee)
      · obtain ⟨-, hm⟩ := update_fold_spec now links results cache1
        intro e hee
        simp only at hee
        rcases hm e hee with hin | htru
        · exact hinv e (hsub2 e hin)
        · exact htru
  · intro k
    simp only [linkCacheHit]
    rcases hl : lookupEntry cache.cache k with _ | ⟨v, t⟩
    · rfl
    · have hmem : ∃ e ∈ cache.cache, e.2 = (v, t) := by
        simp only [lookupEntry] at hl
        rcases hfind : cache.cache.find? (fun e => decide (e.1 = k)) with _ | e
        · rw [hfind] at hl; cases hl
        · rw [hfind] at hl
          refine ⟨e, List.mem_of_find?_eq_some hfind, ?_⟩
          simpa using hl
      obtain ⟨e, hein, he2⟩ := hmem
      have : truthy v = true := by
        have h0 := hinv e hein
        rw [show e.2.1 = v from by rw [he2]] at h0
        exact h0
      simp [this]

/-- Witness for `link_cache_truthy_invariant`: on a concrete all-truthy
cache the hit test for a present fresh key reduces to presence. -/
theorem link_cache_truthy_invariant_witness :
    linkCacheHit { cache := [("a".toList, JVal.str ("L".toList), 0)], expiry_seconds := 100 }
        ("a".toList) 5 =
      (match lookupEntry
          ({ cache := [("a".toList, JVal.str ("L".toList), 0)], expiry_seconds := 100 }
            : LinkCache).cache ("a".toList) with
       | some (_, t) => decide ((5:Int) - t < 100)
       | none => false) := by
  have h := link_cache_truthy_invariant
    { cache := [("a".toList, JVal.str ("L".toList), 0)], expiry_seconds := 100 } 5
    [] none (fun _ => none) (by intro e he; simp at he; rw [he]; rfl)
  exact h.2 ("a".toList)

theorem takeWhile_digits_ok (l v : List Char) (h : v = l.takeWhile Char.isDigit) :
    v.all Char.isDigit = true := by
  subst h
  rw [List.all_eq_true]
  intro x hx
  exact List.mem_takeWhile_imp hx

theorem itemMatchAt_digits :
    ∀ cs v, itemMatchAt cs = some v → v ≠ [] ∧ v.all Char.isDigit = true := by
  intro cs v h
  simp only [itemMatchAt] at h
  split at h
  · split at h
    · cases h
      rename_i hguard
      refine ⟨?_, takeWhile_digits_ok _ _ rfl⟩
      intro hnil
      rw [hnil] at hguard
      simp at hguard
    · cases h
  · cases h

theorem pAltMatchAt_digits :
    ∀ cs v, pAltMatchAt cs = some v → v ≠ [] ∧ v.all Char.isDigit = true := by
  intro cs v h
  simp only [pAltMatchAt] at h
  split at h
  · split at h
    · cases h
    · split at h
      · split at h
        · cases h
          rename_i hguard
          refine ⟨?_, takeWhile_digits_ok _ _ rfl⟩
          intro hnil
          rw [hnil] at hguard
          simp at hguard
        · cases h
      · cases h
  · cases h

theorem productAltMatchAt_digits :
    ∀ cs v, productAltMatchAt cs = some v → v ≠ [] ∧ v.all Char.isDigit = true := by
  intro cs v h
  simp only [productAltMatchAt] at h
  split at h
  · split at h
    · cases h
    · cases h
      rename_i hguard
      refine ⟨?_, takeWhile_digits_ok _ _ rfl⟩
      simpa using hguard
  · cases h

theorem searchWith_digits (m : List Char → Option (List Char))
    (hm : ∀ cs v, m cs = some v → v ≠ [] ∧ v.all Char.isDigit = true) :
    ∀ s v, searchWith m s = some v → v ≠ [] ∧ v.all Char.isDigit = true := by
  intro s
  induction s with
  | nil => intro v h; exact hm [] v h
  | cons c cs ih =>
      intro v h
      simp only [searchWith] at h
      rcases hmv : m (c :: cs) with _ | w <;> rw [hmv] at h
      · exact ih v h
      · cases h
        exact hm _ _ hmv

/-- C6 counterexample: on `http://[/item/123.html` the primary path
pattern would succeed (method (b) returns `123`), but
`extract_product_id` instead raises `ValueError` from the unguarded
`urlparse` call in method (a), so it neither returns the first successful
extraction nor absent. -/
theorem extract_valueerror_counterexample :
    extract_product_id ("http://[/item/123.html".toList) = .error () ∧
    searchWith itemMatchAt ("http://[/item/123.html".toList) = some ("123".toList) :=
  ⟨rfl, rfl⟩

/-- C6 amended: unless the `urlparse` call raises (unbalanced bracket in
the authority, see the counterexample), `extract_product_id` tries the
`productIds` all-digits query parameter, then `/item/<digits>.html`, then
`/p/.../<digits>.html` and `product/<digits>`, returning the first
success and absent when none matches; the spec examples hold, earlier
methods win over later ones, and every extracted id is a non-empty digit
string. -/
theorem extract_product_id_behaviour :
    (extract_product_id ("https://www.example-shop.com/item/1005006234567.html".toList)
        = .ok (some ("1005006234567".toList))) ∧
    (extract_product_id ("https://example-shop.com/some/random/page".toList) = .ok none) ∧
    (extract_product_id ("https://a.com/item/999.html?productIds=123".toList)
        = .ok (some ("123".toList))) ∧
    (extract_product_id ("https://a.com/product/55/item/77.html".toList)
        = .ok (some ("77".toList))) ∧
    (extract_product_id ("https://a.com/p/x/88.htmlproduct/99".toList)
        = .ok (some ("88".toList))) ∧
    (extract_product_id ("https://a.com/product/99".toList) = .ok (some ("99".toList))) ∧
    (∀ url v, extract_product_id url = .ok (some v) →
        v ≠ [] ∧ v.all Char.isDigit = true) := by
  refine ⟨rfl, rfl, rfl, rfl, rfl, rfl, ?_⟩
  intro url v h
  unfold extract_product_id at h
  dsimp only at h
  rcases hpm : productIdsParamMethod (usNormalize url) with e | w <;> rw [hpm] at h
  · cases h
  · cases w with
    | some w0 =>
        simp only at h
        cases h
        unfold productIdsParamMethod at hpm
        rcases hup : urlparse (usNormalize url) with e | parts <;> rw [hup] at hpm
        · cases hpm
        · simp only at hpm
          rcases hfq : firstQueryValue ("productIds".toList) parts.query with _ | q <;>
            rw [hfq] at hpm
          · cases hpm
          · dsimp only at hpm
            by_cases hguard : (!q.isEmpty && q.all Char.isDigit) = true
            · rw [if_pos hguard] at hpm
              cases hpm
              rw [Bool.and_eq_true] at hguard
              refine ⟨?_, hguard.2⟩
              intro hnil
              rw [hnil] at hguard
              simp at hguard
            · rw [if_neg hguard] at hpm
              cases hpm
    | none =>
        simp only at h
        rcases h1 : searchWith itemMatchAt (usNormalize url) with _ | w1 <;> rw [h1] at h
        · rcases h2 : searchWith pAltMatchAt (usNormalize url) with _ | w2 <;> rw [h2] at h
          · rcases h3 : searchWith productAltMatchAt (usNormalize url) with _ | w3 <;>
              rw [h3] at h
            · cases h
            · cases h
              exact searchWith_digits _ productAltMatchAt_digits _ _ h3
          · cases h
            exact searchWith_digits _ pAltMatchAt_digits _ _ h2
        · cases h
          exact searchWith_digits _ itemMatchAt_digits _ _ h1

/-- Witness for `extract_product_id_behaviour`: the digit-string invariant
applied to the first spec example. -/
theorem extract_product_id_behaviour_witness :
    ("1005006234567".toList ≠ []) ∧ ("1005006234567".toList).all Char.isDigit = true := by
  have h := extract_product_id_behaviour
  exact h.2.2.2.2.2.2 ("https://www.example-shop.com/item/1005006234567.html".toList)
    ("1005006234567".toList) h.1

/-- C8: `clean_aliexpress_url` keeps only scheme (defaulting to `https`
when empty) and host and appends `/item/<product_id>.html`: the spec
example evaluates as stated, the result depends only on the parsed scheme
and netloc (so never on query parameters), and an input `urlparse`
rejects yields absent instead of an exception. -/
theorem clean_url_canonicalization :
    (clean_aliexpress_url ("https://fr.example-shop.com/item/123.html?x=1".toList)
        ("123".toList) = some ("https://fr.example-shop.com/item/123.html".toList)) ∧
    (∀ u1 u2 pid p1 p2, urlparse u1 = .ok p1 → urlparse u2 = .ok p2 →
        p1.scheme = p2.scheme → p1.netloc = p2.netloc →
        clean_aliexpress_url u1 pid = clean_aliexpress_url u2 pid) ∧
    (∀ u pid, urlparse u = .error () → clean_aliexpress_url u pid = none) := by
  refine ⟨rfl, ?_, ?_⟩
  · intro u1 u2 pid p1 p2 h1 h2 hs hn
    simp only [clean_aliexpress_url, h1, h2, hs, hn]
  · intro u pid h
    simp [clean_aliexpress_url, h]

/-- Witness for `clean_url_canonicalization`: two URLs sharing scheme and
host but with different paths and queries clean identically; the
unbalanced-bracket URL cleans to absent. -/
theorem clean_url_canonicalization_witness :
    clean_aliexpress_url ("https://fr.example-shop.com/item/123.html?x=1".toList)
        ("123".toList)
      = clean_aliexpress_url ("https://fr.example-shop.com/other/page?y=2#frag".toList)
        ("123".toList) ∧
    clean_aliexpress_url ("http://[".toList) ("1".toList) = none := by
  refine ⟨?_, ?_⟩
  · exact clean_url_canonicalization.2.1
      ("https://fr.example-shop.com/item/123.html?x=1".toList)
      ("https://fr.example-shop.com/other/page?y=2#frag".toList)
      ("123".toList) _ _ rfl rfl rfl rfl
  · exact clean_url_canonicalization.2.2 ("http://[".toList) ("1".toList) rfl

/-- C7 counterexample: with an expired cache entry for the short URL and a
failing fetch, `resolve_short_link` returns absent but the resolved-URL
cache is not unchanged: the initial lookup lazily evicted the expired
entry. -/
theorem resolve_cache_change_on_failure :
    (resolve_short_link
        { cache := [("s".toList, "u".toList, 0)], expiry_seconds := 10 } 100
        ("s".toList) ⟨.err, .err, []⟩).1 = none ∧
    (resolve_short_link
        { cache := [("s".toList, "u".toList, 0)], expiry_seconds := 10 } 100
        ("s".toList) ⟨.err, .err, []⟩).2.cache = [] ∧
    ([("s".toList, "u".toList, (0 : Int))] ≠ ([] : List (List Char × List Char × Int))) :=
  ⟨rfl, rfl, by simp⟩

/-- The final validate-and-cache step of `resolve_short_link`, abstracted
over the post-transformation URL `f2`: absent means no write, a returned
URL passed both validations and was cached. -/
theorem resolve_tail_spec (c1 : CacheWithExpiry (List Char) (List Char)) (now : Int)
    (short_url f2 : List Char)
    (out : Option (List Char) × CacheWithExpiry (List Char) (List Char))
    (hout : out = match extract_product_id f2 with
      | .error _ => (none, c1)
      | .ok pid =>
          if standardDomainMatch f2 && truthyStr pid then (some f2, c1.set short_url f2 now)
          else (none, c1)) :
    (out.1 = none → out.2 = c1) ∧
    (∀ v, out.1 = some v → out.2 = c1.set short_url v now ∧
        standardDomainMatch v = true ∧
        (∃ pid, extract_product_id v = .ok (some pid) ∧ pid ≠ [])) := by
  rcases hx : extract_product_id f2 with e | pid <;> rw [hx] at hout <;>
    dsimp only at hout
  · subst hout
    exact ⟨fun _ => rfl, fun v hv => by simp at hv⟩
  · by_cases hv : (standardDomainMatch f2 && truthyStr pid) = true
    · rw [if_pos hv] at hout
      subst hout
      refine ⟨fun h => by simp at h, ?_⟩
      intro v hv2
      simp only at hv2
      cases hv2
      rw [Bool.and_eq_true] at hv
      refine ⟨rfl, hv.1, ?_⟩
      cases pid with
      | none => simp [truthyStr] at hv
      | some p =>
          refine ⟨p, hx, ?_⟩
          have hp := hv.2
          simp only [truthyStr, Bool.not_eq_true'] at hp
          intro hnil
          rw [hnil] at hp
          simp at hp
    · rw [if_neg hv] at hout
      subst hout
      exact ⟨fun _ => rfl, fun v hv2 => by simp at hv2⟩

/-- C7 amended: when the initial lookup yields no truthy hit,
`resolve_short_link` performs no cache write on any failure path — the
final cache is exactly the post-lookup cache, which differs from the
input cache at most by the lazy eviction of an expired entry for
`short_url` — and on success it returns a final URL that passed both
validations and caches `short_url → final_url` on top of the post-lookup
cache. -/
theorem resolve_short_link_cache_discipline
    (cache : CacheWithExpiry (List Char) (List Char)) (now : Int)
    (short_url : List Char) (env : ResolveEnv)
    (hmiss : truthyStr ((cache.get short_url now).1) = false) :
    ((resolve_short_link cache now short_url env).1 = none →
        (resolve_short_link cache now short_url env).2 = (cache.get short_url now).2) ∧
    (∀ v, (resolve_short_link cache now short_url env).1 = some v →
        (resolve_short_link cache now short_url env).2
            = ((cache.get short_url now).2).set short_url v now ∧
        standardDomainMatch v = true ∧
        (∃ pid, extract_product_id v = .ok (some pid) ∧ pid ≠ [])) := by
  unfold resolve_short_link
  rcases hg : cache.get short_url now with ⟨hit, c1⟩
  rw [hg] at hmiss
  simp only [hmiss, Bool.false_eq_true, if_false]
  cases env.fetch1 with
  | err => exact ⟨fun _ => by trivial, fun v hv => by simp at hv⟩
  | ok status url =>
      by_cases hok : (decide (status = 200) && !url.isEmpty) = true
      · simp only [hok, if_true]
        exact resolve_tail_spec c1 now short_url _ _ rfl
      · simp only [hok, Bool.false_eq_true, if_false]
        exact ⟨fun _ => by trivial, fun v hv => by simp at hv⟩

/-- Witness for `resolve_short_link_cache_discipline`: a successful
resolution from an empty cache caches the validated final URL. -/
theorem resolve_short_link_cache_discipline_witness :
    (resolve_short_link { cache := [], expiry_seconds := 100 } 0 ("s".toList)
        ⟨.ok 200 ("https://www.aliexpress.com/item/123.html".toList), .err, []⟩).2
      = (({ cache := [], expiry_seconds := 100 } :
            CacheWithExpiry (List Char) (List Char)).get ("s".toList) 0).2.set
          ("s".toList) ("https://www.aliexpress.com/item/123.html".toList) 0 ∧
    standardDomainMatch ("https://www.aliexpress.com/item/123.html".toList) = true := by
  have h := resolve_short_link_cache_discipline
    { cache := [], expiry_seconds := 100 } 0 ("s".toList)
    ⟨.ok 200 ("https://www.aliexpress.com/item/123.html".toList), .err, []⟩ (by rfl)
  have h2 := h.2 ("https://www.aliexpress.com/item/123.html".toList) rfl
  exact ⟨h2.1, h2.2.1⟩

end AliSpec
